import Mathlib

/-!
Verification of the terminal abstraction layer (`terminal.c`) of cbw.

The development shallowly embeds the configuration-string parser, the
keymap/graphics table builders, the keystroke-to-command matcher and the
display-mode state machine.  C strings are modelled as `List Nat` of byte
values; the NUL terminator is the end of the list, and functions that in C
read the terminating NUL (or bytes beyond it) see the value 0.  Machine
`char` arithmetic is modelled with explicit `% 256`.
-/

namespace Cbw

/-! ### Constants

`terminal.c` includes `terminal.h` and `specs.h`, which are not part of the
source tree here.  The constants they define are modelled below, from the
spec and from the way `terminal.c` itself uses them.
-/

/-- `CHARM`: mask selecting the character byte of a packed value (0377). -/
def CHARM : Nat := 255

/-- `SYMBOLM`: mask turning a symbol code into a `graphtab` index (0377). -/
def SYMBOLM : Nat := 255

/-- `NSYMC`: number of meta-symbols; `symnames` lists 11 of them. -/
def NSYMC : Nat := 11

/-- `CMDSHIFT`: shift of the command code in the packed command word. -/
def CMDSHIFT : Nat := 8

/-- `LINEFEED` byte. -/
def LINEFEED : Nat := 10

/-- `TAB` byte. -/
def TAB : Nat := 9

/-- `QUOTEC = CNTRL & 'Q'`: the quote key is Control-Q, byte 0x11.
Modelled from the spec: `CNTRL` (the control mask 0x1f) comes from the
missing `terminal.h`. -/
def QUOTEC : Nat := 17

/-- Modelled from the spec: `printable` from the missing `terminal.h`;
printable bytes are the ASCII range from space to tilde. -/
def printable (c : Nat) : Bool := 32 ≤ c && c ≤ 126

/-- Display-mode constants from the missing `terminal.h`.
`read_graphics` stores the marker byte (`var[1] & CHARM`, one of
`'N'`,`'G'`,`'S'` per the spec's `GVARMODES`) directly into `s_mode`,
which `enter_mode` compares against these constants, so they equal the
marker byte values. -/
def SMNORMAL : Int := 78

/-- Graphic (alternate character set) mode constant, `'G'`. -/
def SMGRAPHIC : Int := 71

/-- Standout (inverse video) mode constant, `'S'`. -/
def SMSTANDOUT : Int := 83

/-- Meta-symbol codes from the missing `terminal.h`.  Symbols above the
byte range denote meta-symbols (`terminal.c` header comment); their order
matches `symnames`, and `code & SYMBOLM` indexes `graphtab`. -/
def STAB : Nat := 256

/-- Not-ascii meta-symbol code. -/
def SNOTASCII : Nat := 257

/-- Linefeed meta-symbol code. -/
def SLINEFEED : Nat := 258

/-- Carriage-return meta-symbol code. -/
def SCARETURN : Nat := 259

/-- Formfeed meta-symbol code. -/
def SFORMFEED : Nat := 260

/-- Other-control-character meta-symbol code. -/
def SCONTCODE : Nat := 261

/-- Plaintext-unknown meta-symbol code. -/
def SUNKNOWN : Nat := 262

/-- Pseudo-underline meta-symbol code. -/
def SUNDERLINE : Nat := 263

/-- Horizontal-bar meta-symbol code. -/
def SHORZBAR : Nat := 264

/-- Vertical-bar meta-symbol code. -/
def SVERTBAR : Nat := 265

/-- Lower-left-corner meta-symbol code. -/
def SLLCORNER : Nat := 266

/-- Command codes: "A command's index in this table should be one less
than the command code" (`cmdnames` comment in `terminal.c`). -/
def CGO_UP : Nat := 1

/-- Command code for cursor down. -/
def CGO_DOWN : Nat := 2

/-- Command code for cursor left. -/
def CGO_LEFT : Nat := 3

/-- Command code for cursor right. -/
def CGO_RIGHT : Nat := 4

/-- Command code for refresh. -/
def CREFRESH : Nat := 5

/-- Command code for undo. -/
def CUNDO : Nat := 6

/-- Command code for clear line. -/
def CCLRLINE : Nat := 7

/-- Command code for word search. -/
def CWRDSRCH : Nat := 8

/-- Command code for delete forward. -/
def CDELF : Nat := 9

/-- Command code for delete backward. -/
def CDELB : Nat := 10

/-- Command code for previous block. -/
def CPREVBLOCK : Nat := 11

/-- Command code for next block. -/
def CNEXTBLOCK : Nat := 12

/-- Command code for accept. -/
def CACCEPT : Nat := 13

/-- Command code for execute. -/
def CEXECUTE : Nat := 14

/-- Command code for self-insert (the default command). -/
def CINSERT : Nat := 15

/-- Command code for try-all. -/
def CTRYALL : Nat := 16

/-- Command code for jump-to-command-line. -/
def CJUMPCMD : Nat := 17

/-- Modelled from the spec: `DIGITS` (missing `specs.h`) holds the octal
digits used by the octal escapes of `read_slashed`. -/
def DIGITS : List Nat := [48, 49, 50, 51, 52, 53, 54, 55]

/-- Modelled from the spec: `VARSEP` (missing `specs.h`), the separator
characters between `label=value` entries, i.e. the colon. -/
def VARSEP : List Nat := [58]

/-- Modelled from the spec: `VARTERM` (missing `specs.h`), the value
terminator characters, i.e. the colon. -/
def VARTERM : List Nat := [58]

/-- Modelled from the spec: `GVARMODES` (missing `specs.h`), the mode
marker letters `"NGS"`. -/
def GVARMODES : List Nat := [78, 71, 83]

/-! ### C-string primitives -/

/-- The content of a byte list viewed as a C string: everything before
the first NUL.  `savestr` (which copies with `while (*t++ = *s++);`)
stores exactly this. -/
def cstr (l : List Nat) : List Nat := l.takeWhile (fun c => c ≠ 0)

/-- `savestr`: heap copy of a C string; the copy's content is the bytes
before the first NUL. -/
def savestr (s : List Nat) : List Nat := cstr s

/-- A C string pointer is "at the terminator" when the list is empty or
the current byte is NUL (`*var == NULL` tests in `terminal.c`). -/
def atEnd (l : List Nat) : Bool :=
  match l with
  | [] => true
  | c :: _ => c = 0

/-- The byte a C pointer reads: the head, or 0 at (or past) the
terminator. -/
def head0 (l : List Nat) : Nat := l.headD 0

/-- `substrp(model, given)` from `terminal.c`: walks both strings while
both bytes are non-NUL, fails on a mismatch, and succeeds iff `given` is
exhausted, i.e. the model string starts with the given string. -/
def substrp : List Nat → List Nat → Bool
  | _, [] => true
  | [], g :: _ => g = 0
  | m :: ms, g :: gs =>
    if m = 0 then g = 0
    else if g = 0 then true
    else if m = g then substrp ms gs
    else false

/-- `strcmp(a, b) == 0`: the two C strings have equal content. -/
def strcmp_eq : List Nat → List Nat → Bool
  | [], [] => true
  | [], g :: _ => g = 0
  | m :: _, [] => m = 0
  | m :: ms, g :: gs =>
    if m = 0 then g = 0
    else if g = 0 then false
    else if m = g then strcmp_eq ms gs
    else false

/-- `index(DIGITS, c) != NULL`: `index`/`strchr` also matches the
terminating NUL, so byte 0 counts as found. -/
def inDigits (c : Nat) : Bool := c = 0 || DIGITS.contains c

/-- `c - '0'` computed in 8-bit `char` arithmetic. -/
def sub0 (c : Nat) : Nat := (c + 208) % 256

/-! ### Escape decoding (`read_slashed`, `read_varval`) -/

/-- `read_slashed`: reads one (possibly slashified) character from the
string and returns the decoded byte together with the number of input
positions consumed (the C code advances `*strp` by that amount).  Reads
at or past the string terminator see byte 0. -/
def read_slashed (l : List Nat) : Nat × Nat :=
  match l with
  | [] => (0, 1)
  | c :: rest =>
    if c ≠ 92 then (c, 1)
    else
      let c1 := head0 rest
      if c1 = 110 then (10, 2)        -- \n
      else if c1 = 116 then (9, 2)    -- \t
      else if c1 = 69 then (27, 2)    -- \E
      else if c1 = 102 then (12, 2)   -- \f
      else if c1 = 114 then (13, 2)   -- \r
      else if inDigits c1 = false then (c1, 2)
      else
        let v1 := sub0 c1
        let c2 := head0 (rest.drop 1)
        if inDigits c2 = false then (v1, 2)
        else
          let v2 := (v1 * 8 + sub0 c2) % 256
          let c3 := head0 (rest.drop 2)
          if inDigits c3 = false then (v2, 3)
          else ((v2 * 8 + sub0 c3) % 256, 4)

theorem read_slashed_consumed_pos (l : List Nat) : 1 ≤ (read_slashed l).2 := by
  unfold read_slashed
  cases l with
  | nil => simp
  | cons c rest => dsimp only; split_ifs <;> simp

/-- The value-copying loop of `read_varval`, with explicit fuel: decode
bytes until the string ends or an unescaped terminator is reached;
returns the decoded bytes and the remaining string (still pointing at
the terminator). -/
def decode_valF : Nat → List Nat → List Nat × List Nat
  | 0, l => ([], l)
  | _ + 1, [] => ([], [])
  | f + 1, c :: rest =>
    if c = 0 || VARTERM.contains c then ([], c :: rest)
    else
      let b := (read_slashed (c :: rest)).1
      let k := (read_slashed (c :: rest)).2
      -- `(c :: rest).drop k` for `k ≥ 1` (which `read_slashed` guarantees)
      let p := decode_valF f (rest.drop (k - 1))
      (b :: p.1, p.2)

/-- The value-copying loop of `read_varval`.  Each iteration consumes at
least one byte, so `length + 1` fuel can never run out. -/
def decode_val (l : List Nat) : List Nat × List Nat := decode_valF (l.length + 1) l

theorem decode_valF_congr :
    ∀ f f' (l : List Nat), l.length < f → l.length < f' →
      decode_valF f l = decode_valF f' l := by
  intro f
  induction f with
  | zero => intro f' l h _; omega
  | succ f ih =>
    intro f' l h h'
    match f', l with
    | 0, l => omega
    | f' + 1, [] => rfl
    | f' + 1, c :: rest =>
      simp only [decode_valF]
      split
      · rfl
      · have hd : (rest.drop ((read_slashed (c :: rest)).2 - 1)).length < f := by
          simp only [List.length_drop]
          simp only [List.length_cons] at h
          omega
        have hd' : (rest.drop ((read_slashed (c :: rest)).2 - 1)).length < f' := by
          simp only [List.length_drop]
          simp only [List.length_cons] at h'
          omega
        rw [ih f' _ hd hd']

theorem decode_valF_eq_decode_val (f : Nat) (l : List Nat) (h : l.length < f) :
    decode_valF f l = decode_val l :=
  decode_valF_congr f (l.length + 1) l h (by omega)

/-- One decoding step: on a non-terminator byte, `read_slashed` yields
one output byte and the loop continues after the consumed input. -/
theorem decode_val_step (c : Nat) (rest : List Nat)
    (h : (c = 0 || VARTERM.contains c) = false) :
    decode_val (c :: rest) =
      ((read_slashed (c :: rest)).1 ::
         (decode_val (rest.drop ((read_slashed (c :: rest)).2 - 1))).1,
       (decode_val (rest.drop ((read_slashed (c :: rest)).2 - 1))).2) := by
  conv_lhs => rw [decode_val]
  simp only [List.length_cons, decode_valF, h, Bool.false_eq_true, if_false]
  rw [decode_valF_eq_decode_val]
  simp only [List.length_drop]
  omega

/-- The loop stops at once on a terminator byte or at the end of the
string. -/
theorem decode_val_stop (c : Nat) (rest : List Nat)
    (h : (c = 0 || VARTERM.contains c) = true) :
    decode_val (c :: rest) = ([], c :: rest) ∧ decode_val [] = ([], []) := by
  constructor
  · conv_lhs => rw [decode_val]
    simp only [List.length_cons, decode_valF, h, if_true]
  · rfl

/-- `read_varval`: decodes a value, stores a heap copy of the decoded
bytes, and always returns TRUE.  Result: (success flag, stored value,
remaining string). -/
def read_varval (l : List Nat) : Bool × List Nat × List Nat :=
  (true, savestr (decode_val l).1, (decode_val l).2)

/-! ### Label lookup (`read_varlabel`) -/

/-- A `labelv` table entry: two-character mnemonic and its value. -/
structure labelv where
  label : List Nat
  value : Nat
deriving DecidableEq

/-- Result of `read_varlabel`: either the matched label's value with the
string advanced past the following `=`, or failure with the position
`*strp` is left at. -/
inductive VLRes where
  | ok (value : Nat) (rest : List Nat)
  | failAt (strp : List Nat)
deriving DecidableEq

/-- Skip separator characters (`*str && index(VARSEP, *str)`). -/
def skipSep (l : List Nat) : List Nat :=
  l.dropWhile (fun c => c ≠ 0 && VARSEP.contains c)

/-- `index(str, '=')` followed by `str++`: the remainder after the first
`=`, or failure if none occurs before the terminator. -/
def afterEq (l : List Nat) : Option (List Nat) :=
  match (cstr l).dropWhile (fun c => c ≠ 61) with
  | [] => none
  | _ :: _ => some ((l.dropWhile (fun c => c ≠ 61)).drop 1)

/-- `read_varlabel`: skip separators, find the first table entry whose
label is a prefix of the remaining string, and advance past the
following `=`.  On a label with no following `=`, the C code returns
FALSE leaving `*strp` unchanged; on no matching label it returns FALSE
with `*strp` at the position after the separators. -/
def read_varlabel (labeltab : List labelv) (strp : List Nat) : VLRes :=
  let str := skipSep strp
  match labeltab.find? (fun lp => substrp str lp.label) with
  | none => .failAt str
  | some lp =>
    match afterEq str with
    | none => .failAt strp
    | some rest => .ok lp.value rest

/-! ### The label tables `cmdnames` and `symnames` -/

/-- `cmdnames`: the command mnemonics for the keymap shell variable, in
source order ("up","do","le","ri","re","un","cl","ws","df","db","pr",
"ne","ac","ex","--","ta","jc"). -/
def cmdnames : List labelv :=
  [⟨[117, 112], CGO_UP⟩, ⟨[100, 111], CGO_DOWN⟩, ⟨[108, 101], CGO_LEFT⟩,
   ⟨[114, 105], CGO_RIGHT⟩, ⟨[114, 101], CREFRESH⟩, ⟨[117, 110], CUNDO⟩,
   ⟨[99, 108], CCLRLINE⟩, ⟨[119, 115], CWRDSRCH⟩, ⟨[100, 102], CDELF⟩,
   ⟨[100, 98], CDELB⟩, ⟨[112, 114], CPREVBLOCK⟩, ⟨[110, 101], CNEXTBLOCK⟩,
   ⟨[97, 99], CACCEPT⟩, ⟨[101, 120], CEXECUTE⟩, ⟨[45, 45], CINSERT⟩,
   ⟨[116, 97], CTRYALL⟩, ⟨[106, 99], CJUMPCMD⟩]

/-- `symnames`: the meta-symbol mnemonics for the GRAPHICS shell
variable, in source order ("tb","na","lf","cr","ff","cc","uk","ul",
"hb","vb","ll"). -/
def symnames : List labelv :=
  [⟨[116, 98], STAB⟩, ⟨[110, 97], SNOTASCII⟩, ⟨[108, 102], SLINEFEED⟩,
   ⟨[99, 114], SCARETURN⟩, ⟨[102, 102], SFORMFEED⟩, ⟨[99, 99], SCONTCODE⟩,
   ⟨[117, 107], SUNKNOWN⟩, ⟨[117, 108], SUNDERLINE⟩, ⟨[104, 98], SHORZBAR⟩,
   ⟨[118, 98], SVERTBAR⟩, ⟨[108, 108], SLLCORNER⟩]

/-! ### Keymap building (`read_keymap`, `get_kenv`) -/

/-- A `keycmd` binding: command code and keystroke byte sequence. -/
structure keycmd where
  c_code : Nat
  c_seq : List Nat
deriving DecidableEq

/-- Errors of the keymap builder.  `badLabel` and `valBadFormat` are the
two `disperr`+`exit(1)` branches of `read_keymap`; `outOfFuel` is the
artefact of bounding the while loop. -/
inductive KErr where
  | badLabel
  | valBadFormat
  | outOfFuel
deriving DecidableEq

instance {ε α : Type} [DecidableEq ε] [DecidableEq α] : DecidableEq (Except ε α) :=
  fun x y =>
    match x, y with
    | .ok a, .ok b => decidable_of_iff (a = b) (by simp)
    | .error e, .error f => decidable_of_iff (e = f) (by simp)
    | .ok _, .error _ => isFalse (by simp)
    | .error _, .ok _ => isFalse (by simp)

/-- The loop of `read_keymap`, with explicit fuel bounding the number of
iterations.  New bindings are appended after `acc` (`keycmdp++`). -/
def read_keymapF : Nat → List Nat → List keycmd → Except KErr (List keycmd)
  | 0, _, _ => .error .outOfFuel
  | fuel + 1, var, acc =>
    if atEnd var then .ok acc
    else
      match read_varlabel cmdnames var with
      | .failAt s => if atEnd s then .ok acc else .error .badLabel
      | .ok code rest =>
        let rv := read_varval rest
        if rv.1 = false then .error .valBadFormat
        else read_keymapF fuel rv.2.2 (acc ++ [⟨code, rv.2.1⟩])

/-- `read_keymap`: add the bindings of the given string after `acc`.
Each loop iteration consumes at least one input byte, so `length + 1`
fuel can never run out. -/
def read_keymap (var : List Nat) (acc : List keycmd) : Except KErr (List keycmd) :=
  read_keymapF (var.length + 1) var acc

/-- `get_kenv`: build the key command table by appending, in priority
order, the bindings of the user's keymap shell variable (if set), of the
termcap-derived keymap string, and of the compiled-in default keymap
(`DKEYMAP`, whose text lives in the missing `specs.h` and is therefore a
parameter here). -/
def get_kenv (user : Option (List Nat)) (tcapstr dkeymap : List Nat) :
    Except KErr (List keycmd) := do
  let t1 ← match user with
    | some u => read_keymap u []
    | none => pure []
  let t2 ← read_keymap tcapstr t1
  read_keymap dkeymap t2

/-! ### Graphics table building (`read_graphics`) -/

/-- A `symgraph` entry: display mode and output byte sequence for one
meta-symbol. -/
structure symgraph where
  s_mode : Int
  s_seq : List Nat
deriving DecidableEq

/-- Errors of the graphics builder: the three `disperr`+`exit(1)`
branches of `read_graphics`, plus the fuel artefact. -/
inductive GErr where
  | badLabel
  | badMode
  | valBadFormat
  | outOfFuel
deriving DecidableEq

/-- `index(GVARMODES, c) != NULL`: again, byte 0 matches the terminator. -/
def inGvarmodes (c : Nat) : Bool := c = 0 || GVARMODES.contains c

/-- The loop of `read_graphics`, with explicit fuel.  Each entry must
carry a backslash mode marker (`var[0] == '\\'` and `var[1]` in
`GVARMODES`); otherwise the code dies with "GRAPHICSMAP value has bad
mode".  On success the marker byte itself is stored as the mode. -/
def read_graphicsF : Nat → List Nat → List symgraph → Except GErr (List symgraph)
  | 0, _, _ => .error .outOfFuel
  | fuel + 1, var, tab =>
    if atEnd var then .ok tab
    else
      match read_varlabel symnames var with
      | .failAt s => if atEnd s then .ok tab else .error .badLabel
      | .ok symv rest =>
        if ¬ (head0 rest = 92 ∧ inGvarmodes (head0 (rest.drop 1)) = true) then
          .error .badMode
        else
          let sym_idx := symv % (SYMBOLM + 1)
          let mode : Int := (head0 (rest.drop 1)) % (CHARM + 1)
          let tab1 := tab.set sym_idx
            { tab.getD sym_idx ⟨SMNORMAL, []⟩ with s_mode := mode }
          let rv := read_varval (rest.drop 2)
          if rv.1 = false then .error .valBadFormat
          else
            read_graphicsF fuel rv.2.2
              (tab1.set sym_idx { tab1.getD sym_idx ⟨SMNORMAL, []⟩ with s_seq := rv.2.1 })

/-- `read_graphics`: apply the override entries of `var` to the graphics
table. -/
def read_graphics (var : List Nat) (tab : List symgraph) : Except GErr (List symgraph) :=
  read_graphicsF (var.length + 1) var tab

/-! ### Display-mode state machine (`enter_mode`) -/

/-- Abstract terminal output: the four mode-switch capability strings,
raw bytes written with `putchar`, and graphics sequences written with
`Puts`. -/
inductive TermOut where
  | endAlt
  | endSo
  | startAlt
  | startSo
  | raw (b : Int)
  | gseq (s : List Nat)
deriving DecidableEq, BEq

/-- Result of a display operation: the new value of `termmode`, the
output emitted, and whether `disperr` was called. -/
structure TRes where
  mode : Int
  out : List TermOut
  err : Bool
deriving DecidableEq

/-- Initial value of the global `termmode` (`int termmode = -1;`). -/
def termmode_init : Int := -1

/-- `enter_mode`: no-op if the target equals the current mode; otherwise
emit the end sequence of the current mode (the `default` branch emits
end-standout then end-alt-charset), switch, and emit the start sequence
of the new mode (an unknown target reports "Bad terminal mode"). -/
def enter_mode (termmode mode : Int) : TRes :=
  if termmode = mode then ⟨termmode, [], false⟩
  else
    let endSeq : List TermOut :=
      if termmode = SMNORMAL then []
      else if termmode = SMGRAPHIC then [.endAlt]
      else if termmode = SMSTANDOUT then [.endSo]
      else [.endSo, .endAlt]
    let startSeq : List TermOut :=
      if mode = SMNORMAL then []
      else if mode = SMGRAPHIC then [.startAlt]
      else if mode = SMSTANDOUT then [.startSo]
      else []
    let err : Bool := ¬ (mode = SMNORMAL ∨ mode = SMGRAPHIC ∨ mode = SMSTANDOUT)
    ⟨mode, endSeq ++ startSeq, err⟩

/-- The mode set the spec calls closed: {Normal, Graphic, Standout}. -/
def modeOk (m : Int) : Prop :=
  m = SMNORMAL ∨ m = SMGRAPHIC ∨ m = SMSTANDOUT

instance (m : Int) : Decidable (modeOk m) := by
  unfold modeOk; infer_instance

/-- An output stream contains the combined "end both" emission of the
defensive `default` branch: end-standout immediately followed by
end-alt-charset. -/
def hasEndBoth : List TermOut → Bool
  | [] => false
  | [_] => false
  | a :: b :: rest => (a == TermOut.endSo && b == TermOut.endAlt) || hasEndBoth (b :: rest)

/-! ### Symbol classification and display (`char2sym`, `putsym`) -/

/-- Modelled from the spec: `notascii` from the missing `terminal.h`; a
value outside the 7-bit ASCII range. -/
def notascii (c : Int) : Bool := c < 0 || 127 < c

/-- `printable` on the `int` argument of `char2sym`. -/
def printableI (c : Int) : Bool := 32 ≤ c && c ≤ 126

/-- `char2sym`: the symbol used to display a plaintext character, in the
source's evaluation order. -/
def char2sym (pchar : Int) : Int :=
  if printableI pchar then pchar
  else if pchar = -1 then (SUNKNOWN : Nat)
  else if notascii pchar then (SNOTASCII : Nat)
  else if pchar = 10 then (SLINEFEED : Nat)
  else if pchar = 13 then (SCARETURN : Nat)
  else if pchar = 12 then (SFORMFEED : Nat)
  else if pchar = 9 then (STAB : Nat)
  else (SCONTCODE : Nat)

/-- The spec's `classify`, written in the spec's order of precedence:
printable byte, end-of-input sentinel, newline, carriage return, form
feed, tab, non-ASCII, other control. -/
def classify_spec (c : Int) : Int :=
  if printableI c then c
  else if c = -1 then (SUNKNOWN : Nat)
  else if c = 10 then (SLINEFEED : Nat)
  else if c = 13 then (SCARETURN : Nat)
  else if c = 12 then (SFORMFEED : Nat)
  else if c = 9 then (STAB : Nat)
  else if notascii c then (SNOTASCII : Nat)
  else (SCONTCODE : Nat)

/-- `graphic(symbol)`: the symbol is a meta-symbol, not a literal byte. -/
def graphic (s : Int) : Bool := 255 < s

/-- `putsym`: a literal byte enters Normal mode and is written raw; a
meta-symbol with an out-of-range code reports "Bad symbol code in
putsym" and returns with no output and no mode change; otherwise the
table entry's mode is entered and its sequence written. -/
def putsym (gtab : List symgraph) (termmode : Int) (symbol : Int) : TRes :=
  if ¬ graphic symbol then
    let r := enter_mode termmode SMNORMAL
    ⟨r.mode, r.out ++ [.raw (symbol % 256)], r.err⟩
  else
    let symcode := symbol % ((SYMBOLM : Int) + 1)
    if (NSYMC : Int) ≤ symcode then ⟨termmode, [], true⟩
    else
      let gp := gtab.getD symcode.toNat ⟨SMNORMAL, []⟩
      let r := enter_mode termmode gp.s_mode
      ⟨r.mode, r.out ++ [.gseq gp.s_seq], r.err⟩

/-! ### Keystroke matching (`srch_ktab`, `getcmd`) -/

/-- Result of `srch_ktab`: the index of an exact match, `SK_SUBSTR`, or
`SK_NOMATCH`. -/
inductive SearchRes where
  | found (i : Nat)
  | substr
  | nomatch
deriving DecidableEq

/-- The scan loop of `srch_ktab`: return the index of the first entry
whose sequence equals the keystroke; otherwise remember whether any
entry had the keystroke as a prefix. -/
def srch_aux : List keycmd → List Nat → Nat → Bool → SearchRes
  | [], _, _, sub => if sub then .substr else .nomatch
  | e :: rest, stroke, i, sub =>
    if strcmp_eq e.c_seq stroke then .found i
    else srch_aux rest stroke (i + 1) (sub || substrp e.c_seq stroke)

/-- `srch_ktab`: search the key command table for the given keystroke. -/
def srch_ktab (ktab : List keycmd) (stroke : List Nat) : SearchRes :=
  srch_aux ktab stroke 0 false

/-- The packed command integer `(code << CMDSHIFT) | (c & CHARM)`. -/
def cmdword (code c : Nat) : Nat := (code <<< CMDSHIFT) ||| (c % (CHARM + 1))

/-- The `getcmd` loop.  State: the binding table, the current keystroke
buffer, the unread input, and the number of times the terminal beeped.
Returns the packed command and the remaining input, or `none` if the
input ends before a command resolves, together with the beep count.
(The C fixed-size `keystroke[10]` buffer is modelled as unbounded; the
dead `index < 0` diagnostic of the `default` case is unrepresentable
because `SearchRes` is an enumeration.) -/
def getcmdLoop (ktab : List keycmd) (ks : List Nat) :
    List Nat → Nat → Option (Nat × List Nat) × Nat
  | [], beeps => (none, beeps)
  | c :: rest, beeps =>
    let ks' := ks ++ [c]
    match srch_ktab ktab ks' with
    | .substr => getcmdLoop ktab ks' rest beeps
    | .found i => (some (cmdword (ktab.getD i ⟨0, []⟩).c_code c, rest), beeps)
    | .nomatch =>
      if ks'.length ≠ 1 then getcmdLoop ktab [] rest (beeps + 1)
      else if c = QUOTEC then
        match rest with
        | [] => (none, beeps)
        | c2 :: rest2 => (some (cmdword CINSERT c2, rest2), beeps)
      else if printable c then (some (cmdword CINSERT c, rest), beeps)
      else if c ≠ LINEFEED ∧ c ≠ TAB then getcmdLoop ktab [] rest (beeps + 1)
      else (some (cmdword CINSERT c, rest), beeps)

/-- `getcmd`: read one command from the input stream, starting with an
empty keystroke buffer. -/
def getcmd (ktab : List keycmd) (input : List Nat) : Option (Nat × List Nat) × Nat :=
  getcmdLoop ktab [] input 0

/-! ### Helper lemmas -/

theorem enter_mode_self (m : Int) : enter_mode m m = ⟨m, [], false⟩ := by
  simp [enter_mode]

theorem enter_mode_to_normal (tm : Int) :
    (enter_mode tm SMNORMAL).mode = SMNORMAL ∧ (enter_mode tm SMNORMAL).err = false := by
  unfold enter_mode
  split_ifs <;> simp_all

theorem read_varval_fst (l : List Nat) : (read_varval l).1 = true := rfl

theorem read_keymapF_ne_vbf (f : Nat) :
    ∀ var acc, read_keymapF f var acc ≠ .error .valBadFormat := by
  induction f with
  | zero => intro var acc h; simp [read_keymapF] at h
  | succ n ih =>
    intro var acc h
    simp only [read_keymapF] at h
    split at h
    · simp at h
    · split at h
      · split at h <;> simp_all
      · rw [read_varval_fst] at h
        simp only [Bool.true_eq_false, if_false] at h
        exact ih _ _ h

theorem read_graphicsF_ne_vbf (f : Nat) :
    ∀ var tab, read_graphicsF f var tab ≠ .error .valBadFormat := by
  induction f with
  | zero => intro var tab h; simp [read_graphicsF] at h
  | succ n ih =>
    intro var tab h
    simp only [read_graphicsF] at h
    split at h
    · simp at h
    · split at h
      · split at h <;> simp_all
      · split at h
        · simp at h
        · rw [read_varval_fst] at h
          simp only [Bool.true_eq_false, if_false] at h
          exact ih _ _ h

theorem mem_DIGITS {d : Nat} : d ∈ DIGITS ↔ 48 ≤ d ∧ d ≤ 55 := by
  simp [DIGITS]
  omega

theorem inDigits_of_mem {d : Nat} (h : d ∈ DIGITS) : inDigits d = true := by
  simp [inDigits, DIGITS]
  rcases mem_DIGITS.1 h with ⟨h1, h2⟩
  omega

theorem sub0_of_mem {d : Nat} (h : d ∈ DIGITS) : sub0 d = d - 48 := by
  rcases mem_DIGITS.1 h with ⟨h1, h2⟩
  unfold sub0
  omega

theorem rs_oct3 (d1 d2 d3 : Nat) (rest : List Nat)
    (h1 : d1 ∈ DIGITS) (h2 : d2 ∈ DIGITS) (h3 : d3 ∈ DIGITS) :
    read_slashed (92 :: d1 :: d2 :: d3 :: rest) =
      ((((d1 - 48) * 8 + (d2 - 48)) * 8 + (d3 - 48)) % 256, 4) := by
  have b1 := mem_DIGITS.1 h1
  have b2 := mem_DIGITS.1 h2
  have b3 := mem_DIGITS.1 h3
  simp [read_slashed, head0, inDigits_of_mem h1, inDigits_of_mem h2, inDigits_of_mem h3,
    sub0_of_mem h1, sub0_of_mem h2, sub0_of_mem h3]
  split_ifs <;> first | omega | exact Prod.ext (by omega) rfl

theorem rs_oct2 (d1 d2 e : Nat) (rest : List Nat)
    (h1 : d1 ∈ DIGITS) (h2 : d2 ∈ DIGITS) (he : inDigits e = false) :
    read_slashed (92 :: d1 :: d2 :: e :: rest) = ((d1 - 48) * 8 + (d2 - 48), 3) := by
  have b1 := mem_DIGITS.1 h1
  have b2 := mem_DIGITS.1 h2
  simp [read_slashed, head0, inDigits_of_mem h1, inDigits_of_mem h2, he,
    sub0_of_mem h1, sub0_of_mem h2]
  split_ifs <;> first | omega | exact Prod.ext (by omega) rfl

theorem rs_oct1 (d1 e : Nat) (rest : List Nat)
    (h1 : d1 ∈ DIGITS) (he : inDigits e = false) :
    read_slashed (92 :: d1 :: e :: rest) = (d1 - 48, 2) := by
  have b1 := mem_DIGITS.1 h1
  simp [read_slashed, head0, inDigits_of_mem h1, he, sub0_of_mem h1]
  split_ifs <;> first | omega | exact Prod.ext (by omega) rfl

theorem rs_other (b : Nat) (rest : List Nat)
    (hn : b ≠ 110) (ht : b ≠ 116) (hr : b ≠ 114) (hf : b ≠ 102) (hE : b ≠ 69)
    (hd : inDigits b = false) :
    read_slashed (92 :: b :: rest) = (b, 2) := by
  simp [read_slashed, head0, hn, ht, hr, hf, hE, hd]

theorem strcmp_eq_iff : ∀ (a b : List Nat), (0 : Nat) ∉ a → (0 : Nat) ∉ b →
    (strcmp_eq a b = true ↔ a = b) := by
  intro a
  induction a with
  | nil =>
    intro b _ hb
    cases b with
    | nil => simp [strcmp_eq]
    | cons g gs =>
      have : g ≠ 0 := fun h => hb (h ▸ List.mem_cons_self g gs)
      simp [strcmp_eq, this]
  | cons m ms ih =>
    intro b ha hb
    have hm : m ≠ 0 := fun h => ha (h ▸ List.mem_cons_self m ms)
    cases b with
    | nil => simp [strcmp_eq, hm]
    | cons g gs =>
      have hg : g ≠ 0 := fun h => hb (h ▸ List.mem_cons_self g gs)
      have hms : (0 : Nat) ∉ ms := fun h => ha (List.mem_cons_of_mem m h)
      have hgs : (0 : Nat) ∉ gs := fun h => hb (List.mem_cons_of_mem g h)
      by_cases hmg : m = g
      · subst hmg
        simp [strcmp_eq, hm, ih gs hms hgs]
      · simp [strcmp_eq, hm, hg, hmg]

theorem substrp_iff : ∀ (m g : List Nat), (0 : Nat) ∉ m → (0 : Nat) ∉ g →
    (substrp m g = true ↔ g <+: m) := by
  intro m
  induction m with
  | nil =>
    intro g _ hg
    cases g with
    | nil => simp [substrp]
    | cons g0 gs =>
      have : g0 ≠ 0 := fun h => hg (h ▸ List.mem_cons_self g0 gs)
      simp [substrp, this]
  | cons m0 ms ih =>
    intro g hm hg
    have hm0 : m0 ≠ 0 := fun h => hm (h ▸ List.mem_cons_self m0 ms)
    cases g with
    | nil => simp [substrp, List.nil_prefix]
    | cons g0 gs =>
      have hg0 : g0 ≠ 0 := fun h => hg (h ▸ List.mem_cons_self g0 gs)
      have hms : (0 : Nat) ∉ ms := fun h => hm (List.mem_cons_of_mem m0 h)
      have hgs : (0 : Nat) ∉ gs := fun h => hg (List.mem_cons_of_mem g0 h)
      by_cases hmg : m0 = g0
      · subst hmg
        simp [substrp, hm0, ih gs hms hgs, List.cons_prefix_cons]
      · simp only [substrp, List.cons_prefix_cons]
        rw [if_neg hm0, if_neg hg0, if_neg hmg]
        simp
        intro h
        exact absurd h.symm hmg

theorem srch_aux_no_exact (stroke : List Nat) :
    ∀ (ktab : List keycmd) (i : Nat) (sub : Bool),
      (∀ e ∈ ktab, strcmp_eq e.c_seq stroke = false) →
      srch_aux ktab stroke i sub =
        (if (sub || ktab.any fun e => substrp e.c_seq stroke) = true then SearchRes.substr
         else SearchRes.nomatch) := by
  intro ktab
  induction ktab with
  | nil => intro i sub h; simp [srch_aux]
  | cons e rest ih =>
    intro i sub h
    have he := h e (List.mem_cons_self e rest)
    simp only [srch_aux, he, Bool.false_eq_true, if_false]
    rw [ih (i + 1) _ (fun x hx => h x (List.mem_cons_of_mem e hx))]
    simp [List.any_cons, Bool.or_assoc]

theorem srch_aux_found (stroke : List Nat) :
    ∀ (ktab : List keycmd) (i : Nat) (sub : Bool),
      (∃ e ∈ ktab, strcmp_eq e.c_seq stroke = true) →
      ∃ j, j < ktab.length ∧ strcmp_eq ((ktab.getD j ⟨0, []⟩).c_seq) stroke = true ∧
        (∀ j' < j, strcmp_eq ((ktab.getD j' ⟨0, []⟩).c_seq) stroke = false) ∧
        srch_aux ktab stroke i sub = .found (i + j) := by
  intro ktab
  induction ktab with
  | nil =>
    rintro i sub ⟨e, he, -⟩
    exact absurd he (List.not_mem_nil e)
  | cons e rest ih =>
    intro i sub hex
    by_cases he : strcmp_eq e.c_seq stroke = true
    · refine ⟨0, by simp, by simpa using he, by omega, ?_⟩
      simp [srch_aux, he]
    · have hex' : ∃ x ∈ rest, strcmp_eq x.c_seq stroke = true := by
        rcases hex with ⟨x, hx, hxs⟩
        rcases List.mem_cons.1 hx with h | h
        · exact absurd (h ▸ hxs) he
        · exact ⟨x, h, hxs⟩
      rcases ih (i + 1) (sub || substrp e.c_seq stroke) hex' with ⟨j, hj, hsj, hmin, heq⟩
      simp only [Bool.not_eq_true] at he
      refine ⟨j + 1, by simpa using Nat.succ_lt_succ hj, by simpa using hsj, ?_, ?_⟩
      · intro j' hj'
        cases j' with
        | zero => simpa using he
        | succ k => simpa using hmin k (by omega)
      · have hstep : srch_aux (e :: rest) stroke i sub =
            srch_aux rest stroke (i + 1) (sub || substrp e.c_seq stroke) := by
          simp [srch_aux, he]
        rw [hstep, heq]
        congr 1
        omega

theorem srch_ktab_found_first (ktab : List keycmd) (stroke : List Nat) (j : Nat)
    (h : srch_ktab ktab stroke = .found j) :
    j < ktab.length ∧ strcmp_eq ((ktab.getD j ⟨0, []⟩).c_seq) stroke = true ∧
    ∀ i < j, strcmp_eq ((ktab.getD i ⟨0, []⟩).c_seq) stroke = false := by
  by_cases hex : ∃ e ∈ ktab, strcmp_eq e.c_seq stroke = true
  · rcases srch_aux_found stroke ktab 0 false hex with ⟨j0, hj0, hs, hmin, heq⟩
    rw [srch_ktab, heq] at h
    have hj : j = j0 := by
      have := SearchRes.found.inj h
      omega
    subst hj
    exact ⟨hj0, hs, hmin⟩
  · push_neg at hex
    have hall : ∀ e ∈ ktab, strcmp_eq e.c_seq stroke = false := by
      intro e hme
      simpa using Bool.not_eq_true _ ▸ hex e hme
    rw [srch_ktab, srch_aux_no_exact stroke ktab 0 false hall] at h
    split at h <;> simp at h

theorem read_keymapF_acc_eq (f : Nat) : ∀ (var : List Nat) (acc : List keycmd),
    read_keymapF f var acc = (read_keymapF f var []).map (fun new => acc ++ new) := by
  induction f with
  | zero => intro var acc; rfl
  | succ n ih =>
    intro var acc
    simp only [read_keymapF]
    split
    · simp [Except.map]
    · split
      · split <;> simp [Except.map]
      · rw [read_varval_fst]
        simp only [Bool.true_eq_false, if_false]
        rw [ih, ih _ ([] ++ [_])]
        cases read_keymapF n _ [] <;> simp [Except.map]

theorem read_keymap_acc_eq (var : List Nat) (acc : List keycmd) :
    read_keymap var acc = (read_keymap var []).map (fun new => acc ++ new) :=
  read_keymapF_acc_eq _ var acc

/-! ### Claim theorems -/

/-- C1, counterexample: a NUL input byte defeats the claimed matching
discipline because the keystroke buffer is a C string.  With the single
binding `"ab"` (code 1) and input `[97, 0]` the buffer after the second
byte is `[97, 0]`, which neither equals the binding's sequence nor is a
strict prefix of it, and has length 2, so the claim requires an alert
and a restart (one beep, both bytes discarded, yielding beep count 1 on
the exhausted input).  The code instead truncates the buffer string at
the NUL: `srch_ktab` sees `"a"`, still a prefix of `"ab"`, keeps
reading, and consumes the whole input with no beep. -/
theorem getcmd_nul_byte_counterexample :
    (decide (∃ e ∈ [(⟨1, [97, 98]⟩ : keycmd)], e.c_seq = [97, 0]) = false) ∧
    (decide (∃ e ∈ [(⟨1, [97, 98]⟩ : keycmd)], [97, 0] <+: e.c_seq ∧ [97, 0] ≠ e.c_seq) = false) ∧
    getcmd [⟨1, [97, 98]⟩] [97, 0] = (none, 0) ∧
    decide ((((none : Option (Nat × List Nat)), (0 : Nat)) :
      Option (Nat × List Nat) × Nat) = (none, 1)) = false := by decide

/-- C1, amended: for binding tables whose sequences contain no NUL byte
(as every table built by `read_keymap` does, since `savestr` stops at a
NUL) and for keystroke-buffer bytes and input bytes that are nonzero,
`getcmd` consumes bytes one at a time into the keystroke buffer and: if
the buffer equals some binding's sequence, it returns that (first such)
binding's code packed with the last buffer byte as argument; if the
buffer is a strict prefix of at least one binding's sequence, it keeps
reading; if neither holds and the buffer length exceeds 1, it sounds
the alert, discards the buffer, and restarts matching from the next
input byte (the byte that broke the match is not reprocessed).  A NUL
byte anywhere in the stream escapes this discipline (see the
counterexample) because the C-string comparisons stop at it. -/
theorem getcmd_step_matching (ktab : List keycmd) (buf : List Nat) (c : Nat)
    (rest : List Nat) (beeps : Nat)
    (hseq : ∀ e ∈ ktab, (0 : Nat) ∉ e.c_seq) (hbuf : (0 : Nat) ∉ buf) (hc : c ≠ 0) :
    ((∃ e ∈ ktab, e.c_seq = buf ++ [c]) →
      ∃ j, j < ktab.length ∧ (ktab.getD j ⟨0, []⟩).c_seq = buf ++ [c] ∧
        (∀ j' < j, (ktab.getD j' ⟨0, []⟩).c_seq ≠ buf ++ [c]) ∧
        getcmdLoop ktab buf (c :: rest) beeps =
          (some (cmdword (ktab.getD j ⟨0, []⟩).c_code c, rest), beeps)) ∧
    ((¬ ∃ e ∈ ktab, e.c_seq = buf ++ [c]) →
     (∃ e ∈ ktab, (buf ++ [c]) <+: e.c_seq ∧ buf ++ [c] ≠ e.c_seq) →
      getcmdLoop ktab buf (c :: rest) beeps = getcmdLoop ktab (buf ++ [c]) rest beeps) ∧
    ((¬ ∃ e ∈ ktab, e.c_seq = buf ++ [c]) →
     (¬ ∃ e ∈ ktab, (buf ++ [c]) <+: e.c_seq ∧ buf ++ [c] ≠ e.c_seq) →
     1 < (buf ++ [c]).length →
      getcmdLoop ktab buf (c :: rest) beeps = getcmdLoop ktab [] rest (beeps + 1)) := by
  have hs : (0 : Nat) ∉ buf ++ [c] := by
    intro hmem
    rcases List.mem_append.1 hmem with h | h
    · exact hbuf h
    · simp at h
      exact hc h.symm
  have hmem_getD : ∀ j, j < ktab.length → ktab.getD j ⟨0, []⟩ ∈ ktab := by
    intro j hj
    rw [List.getD_eq_getElem ktab ⟨0, []⟩ hj]
    exact List.getElem_mem hj
  refine ⟨?_, ?_, ?_⟩
  · intro hex
    have hexs : ∃ e ∈ ktab, strcmp_eq e.c_seq (buf ++ [c]) = true := by
      rcases hex with ⟨e, he, heq⟩
      exact ⟨e, he, (strcmp_eq_iff _ _ (hseq e he) hs).2 heq⟩
    rcases srch_aux_found (buf ++ [c]) ktab 0 false hexs with ⟨j, hj, hsj, hmin, heq⟩
    have hfound : srch_ktab ktab (buf ++ [c]) = .found j := by
      rw [srch_ktab, heq]
      simp
    refine ⟨j, hj, (strcmp_eq_iff _ _ (hseq _ (hmem_getD j hj)) hs).1 hsj, ?_, ?_⟩
    · intro j' hj' heq'
      have := (strcmp_eq_iff _ _ (hseq _ (hmem_getD j' (by omega))) hs).2 heq'
      rw [hmin j' hj'] at this
      exact Bool.false_ne_true this
    · simp only [getcmdLoop]
      rw [hfound]
  · intro hnex hpre
    have hall : ∀ e ∈ ktab, strcmp_eq e.c_seq (buf ++ [c]) = false := by
      intro e he
      rcases Bool.eq_false_or_eq_true (strcmp_eq e.c_seq (buf ++ [c])) with h | h
      · exact absurd ⟨e, he, (strcmp_eq_iff _ _ (hseq e he) hs).1 h⟩ hnex
      · exact h
    have hany : (ktab.any fun e => substrp e.c_seq (buf ++ [c])) = true := by
      rcases hpre with ⟨e, he, hp, -⟩
      exact List.any_eq_true.2 ⟨e, he, (substrp_iff _ _ (hseq e he) hs).2 hp⟩
    have hsub : srch_ktab ktab (buf ++ [c]) = .substr := by
      rw [srch_ktab, srch_aux_no_exact (buf ++ [c]) ktab 0 false hall]
      simp [hany]
    simp only [getcmdLoop]
    rw [hsub]
  · intro hnex hnpre hlen
    have hall : ∀ e ∈ ktab, strcmp_eq e.c_seq (buf ++ [c]) = false := by
      intro e he
      rcases Bool.eq_false_or_eq_true (strcmp_eq e.c_seq (buf ++ [c])) with h | h
      · exact absurd ⟨e, he, (strcmp_eq_iff _ _ (hseq e he) hs).1 h⟩ hnex
      · exact h
    have hnone : (ktab.any fun e => substrp e.c_seq (buf ++ [c])) = false := by
      rw [List.any_eq_false]
      intro e he hp
      have hpre := (substrp_iff _ _ (hseq e he) hs).1 hp
      by_cases heq : buf ++ [c] = e.c_seq
      · exact hnex ⟨e, he, heq.symm⟩
      · exact hnpre ⟨e, he, hpre, heq⟩
    have hnom : srch_ktab ktab (buf ++ [c]) = .nomatch := by
      rw [srch_ktab, srch_aux_no_exact (buf ++ [c]) ktab 0 false hall]
      simp [hnone]
    simp only [getcmdLoop]
    rw [hnom]
    rw [if_pos (ne_of_gt hlen)]

/-- C1, witness: the binding `"a"` with code 5 matches the single input
byte `'a'` at table index 0. -/
theorem getcmd_step_matching_witness :
    ∃ j, j < ([(⟨5, [97]⟩ : keycmd)] : List keycmd).length ∧
      (([(⟨5, [97]⟩ : keycmd)] : List keycmd).getD j ⟨0, []⟩).c_seq = [] ++ [97] ∧
      (∀ j' < j, (([(⟨5, [97]⟩ : keycmd)] : List keycmd).getD j' ⟨0, []⟩).c_seq ≠ [] ++ [97]) ∧
      getcmdLoop [⟨5, [97]⟩] [] (97 :: []) 0 =
        (some (cmdword (([(⟨5, [97]⟩ : keycmd)] : List keycmd).getD j ⟨0, []⟩).c_code 97, []), 0) :=
  (getcmd_step_matching [⟨5, [97]⟩] [] 97 [] 0 (by decide) (by decide) (by decide)).1
    (by decide)

/-- C2: when a single input byte produces no match and no ambiguity in
the binding table (`srch_ktab` returns no-match on the one-byte
keystroke), `getcmd` resolves it as the claim states: the quote byte
`QUOTEC` causes the next input byte to be read and returned as the
self-insert argument regardless of printability; a printable byte, or
exactly newline or tab, returns self-insert with itself as argument;
any other single byte sounds the alert and restarts matching without
returning a command. -/
theorem getcmd_single_byte_resolution (ktab : List keycmd) (c : Nat)
    (rest : List Nat) (beeps : Nat) (h : srch_ktab ktab [c] = .nomatch) :
    (c = QUOTEC → ∀ c2 rest2, rest = c2 :: rest2 →
      getcmdLoop ktab [] (c :: rest) beeps = (some (cmdword CINSERT c2, rest2), beeps)) ∧
    (c ≠ QUOTEC → printable c = true →
      getcmdLoop ktab [] (c :: rest) beeps = (some (cmdword CINSERT c, rest), beeps)) ∧
    (c ≠ QUOTEC → printable c = false → (c = LINEFEED ∨ c = TAB) →
      getcmdLoop ktab [] (c :: rest) beeps = (some (cmdword CINSERT c, rest), beeps)) ∧
    (c ≠ QUOTEC → printable c = false → c ≠ LINEFEED → c ≠ TAB →
      getcmdLoop ktab [] (c :: rest) beeps = getcmdLoop ktab [] rest (beeps + 1)) := by
  refine ⟨?_, ?_, ?_, ?_⟩
  · intro hq c2 rest2 hrest
    subst hrest
    subst hq
    simp only [getcmdLoop, List.nil_append]
    rw [h]
    simp
  · intro hq hp
    simp only [getcmdLoop, List.nil_append]
    rw [h]
    simp [hq, hp]
  · intro hq hp hlt
    simp only [getcmdLoop, List.nil_append]
    rw [h]
    rcases hlt with h10 | h9 <;> subst_vars <;> simp_all [QUOTEC, LINEFEED, TAB]
  · intro hq hp hl ht
    simp only [getcmdLoop, List.nil_append]
    rw [h]
    simp [hq, hp, hl, ht]

/-- C2, witness: on the empty table, `'q'` self-inserts, and the quote
byte followed by the non-printable byte 1 self-inserts 1. -/
theorem getcmd_single_byte_resolution_witness :
    getcmdLoop [] [] [113] 0 = (some (cmdword CINSERT 113, []), 0) ∧
    getcmdLoop [] [] [17, 1] 0 = (some (cmdword CINSERT 1, []), 0) :=
  ⟨(getcmd_single_byte_resolution [] 113 [] 0 (by decide)).2.1 (by decide) (by decide),
   (getcmd_single_byte_resolution [] 17 [1] 0 (by decide)).1 rfl 1 [] rfl⟩

/-- C9: `get_kenv` appends bindings in priority order — user override
string first, then the termcap-derived keymap string, then the
compiled-in defaults — and exact-match lookup scans the whole table
from the start, so the result of a successful `srch_ktab` is the
earliest entry whose sequence equals the keystroke (every earlier entry
differs), and `getcmd` returns that entry's command code; hence
whenever two bindings carry an identical sequence the earlier-appended
one's code is returned. -/
theorem keymap_layering_first_match :
    (∀ (user tcapstr dkeymap : List Nat) (tab : List keycmd),
      get_kenv (some user) tcapstr dkeymap = .ok tab →
      ∃ tu tt td, read_keymap user [] = .ok tu ∧ read_keymap tcapstr [] = .ok tt ∧
        read_keymap dkeymap [] = .ok td ∧ tab = tu ++ tt ++ td) ∧
    (∀ (ktab : List keycmd) (stroke : List Nat) (j : Nat),
      srch_ktab ktab stroke = .found j →
      j < ktab.length ∧ strcmp_eq (ktab.getD j ⟨0, []⟩).c_seq stroke = true ∧
      ∀ i < j, strcmp_eq (ktab.getD i ⟨0, []⟩).c_seq stroke = false) ∧
    (∀ (ktab : List keycmd) (buf : List Nat) (c : Nat) (rest : List Nat) (beeps j : Nat),
      srch_ktab ktab (buf ++ [c]) = .found j →
      getcmdLoop ktab buf (c :: rest) beeps =
        (some (cmdword (ktab.getD j ⟨0, []⟩).c_code c, rest), beeps)) := by
  refine ⟨?_, srch_ktab_found_first, ?_⟩
  · intro user tcapstr dkeymap tab h
    simp only [get_kenv, bind, Except.bind] at h
    cases hu : read_keymap user [] with
    | error e => rw [hu] at h; simp at h
    | ok tu =>
      rw [hu] at h
      dsimp only at h
      rw [read_keymap_acc_eq tcapstr tu] at h
      cases ht : read_keymap tcapstr [] with
      | error e => rw [ht] at h; simp [Except.map] at h
      | ok tt =>
        rw [ht] at h
        simp only [Except.map] at h
        rw [read_keymap_acc_eq dkeymap (tu ++ tt)] at h
        cases hd : read_keymap dkeymap [] with
        | error e => rw [hd] at h; simp [Except.map] at h
        | ok td =>
          rw [hd] at h
          simp only [Except.map, Except.ok.injEq] at h
          exact ⟨tu, tt, td, rfl, rfl, rfl, by rw [← h, List.append_assoc]⟩
  · intro ktab buf c rest beeps j h
    simp only [getcmdLoop]
    rw [h]

/-- C9, witness: user string `"up=a"`, termcap string `"do=b"` and
default string `"do=a"` build the table in that order; the sequence
`"a"` is carried both by the user binding (code 1, index 0) and the
default binding (code 2, index 2), and `getcmd` on input `'a'` returns
the code of the earlier-appended entry (index 0). -/
theorem keymap_layering_first_match_witness :
    (∃ tu tt td,
      read_keymap [117, 112, 61, 97] [] = .ok tu ∧
      read_keymap [100, 111, 61, 98] [] = .ok tt ∧
      read_keymap [100, 111, 61, 97] [] = .ok td ∧
      ([⟨1, [97]⟩, ⟨2, [98]⟩, ⟨2, [97]⟩] : List keycmd) = tu ++ tt ++ td) ∧
    getcmdLoop [⟨1, [97]⟩, ⟨2, [98]⟩, ⟨2, [97]⟩] [] [97] 0 =
      (some (cmdword (([⟨1, [97]⟩, ⟨2, [98]⟩, ⟨2, [97]⟩] : List keycmd).getD 0
        ⟨0, []⟩).c_code 97, []), 0) :=
  ⟨keymap_layering_first_match.1 [117, 112, 61, 97] [100, 111, 61, 98] [100, 111, 61, 97]
    [⟨1, [97]⟩, ⟨2, [98]⟩, ⟨2, [97]⟩] (by decide),
   keymap_layering_first_match.2.2 [⟨1, [97]⟩, ⟨2, [98]⟩, ⟨2, [97]⟩] [] 97 [] 0 0 (by decide)⟩

/-- C3, counterexample: the octal digit scan of `read_slashed` uses
`index`/`strchr`, which also matches the terminating NUL, so a 1- or
2-digit octal escape at the very end of the value does not yield its
octal value: decoding the value `"\5"` (bytes `[92, 53]`) yields the
byte 144 (the scan consumes the terminator as two further "digits" of
value `0 - '0'` in 8-bit `char` arithmetic), not 5; and a 3-digit
escape whose value exceeds a byte is truncated: `"\400"` yields 0, not
the octal value 256.  (Bytes read beyond the terminator are modelled as
0; any other memory contents also fail to give 5, since the result
after consuming the terminator digit is already `5*8 - 48 = -8`.) -/
theorem read_slashed_eos_octal_counterexample :
    decode_val [92, 53] = ([144], []) ∧
    decide ((144 : Nat) = 5) = false ∧
    decode_val [92, 52, 48, 48] = ([0], []) ∧
    decide ((0 : Nat) = 256) = false := by decide

/-- C3, amended: escape decoding of a configuration value produces one
output byte per step — a non-backslash byte yields itself; `\n`, `\t`,
`\r`, `\f`, `\E` yield 0x0A, 0x09, 0x0D, 0x0C, 0x1B; a backslash
followed by 3 octal digits yields the octal value modulo 256 (`\101`
yields 0x41), and a backslash followed by 1 or 2 octal digits yields
the octal value provided a further non-digit byte follows within the
string (a 1–2-digit octal escape ending the string instead consumes the
terminator as an extra digit and yields a different byte); a backslash
followed by any other byte yields that byte literally; and decoding
stops before an unescaped terminator (colon or end of string). -/
theorem decode_val_escape_steps (c b d1 d2 d3 : Nat) (rest : List Nat) :
    (c ≠ 0 → c ≠ 58 → c ≠ 92 →
      decode_val (c :: rest) = (c :: (decode_val rest).1, (decode_val rest).2)) ∧
    (decode_val (92 :: 110 :: rest) = (10 :: (decode_val rest).1, (decode_val rest).2)) ∧
    (decode_val (92 :: 116 :: rest) = (9 :: (decode_val rest).1, (decode_val rest).2)) ∧
    (decode_val (92 :: 114 :: rest) = (13 :: (decode_val rest).1, (decode_val rest).2)) ∧
    (decode_val (92 :: 102 :: rest) = (12 :: (decode_val rest).1, (decode_val rest).2)) ∧
    (decode_val (92 :: 69 :: rest) = (27 :: (decode_val rest).1, (decode_val rest).2)) ∧
    (b ≠ 110 → b ≠ 116 → b ≠ 114 → b ≠ 102 → b ≠ 69 → inDigits b = false →
      decode_val (92 :: b :: rest) = (b :: (decode_val rest).1, (decode_val rest).2)) ∧
    (d1 ∈ DIGITS → d2 ∈ DIGITS → d3 ∈ DIGITS →
      decode_val (92 :: d1 :: d2 :: d3 :: rest) =
        ((((d1 - 48) * 8 + (d2 - 48)) * 8 + (d3 - 48)) % 256 :: (decode_val rest).1,
         (decode_val rest).2)) ∧
    (d1 ∈ DIGITS → d2 ∈ DIGITS → inDigits d3 = false →
      decode_val (92 :: d1 :: d2 :: d3 :: rest) =
        (((d1 - 48) * 8 + (d2 - 48)) :: (decode_val (d3 :: rest)).1,
         (decode_val (d3 :: rest)).2)) ∧
    (d1 ∈ DIGITS → inDigits d2 = false →
      decode_val (92 :: d1 :: d2 :: rest) =
        ((d1 - 48) :: (decode_val (d2 :: rest)).1, (decode_val (d2 :: rest)).2)) ∧
    (decode_val (58 :: rest) = ([], 58 :: rest)) ∧
    (decode_val ([] : List Nat) = ([], [])) := by
  refine ⟨?_, ?_, ?_, ?_, ?_, ?_, ?_, ?_, ?_, ?_, ?_, rfl⟩
  · intro h0 h58 h92
    rw [decode_val_step c rest (by simp [VARTERM]; omega)]
    simp [read_slashed, h92]
  · rw [decode_val_step 92 (110 :: rest) (by decide)]
    simp [read_slashed, head0]
  · rw [decode_val_step 92 (116 :: rest) (by decide)]
    simp [read_slashed, head0]
  · rw [decode_val_step 92 (114 :: rest) (by decide)]
    simp [read_slashed, head0]
  · rw [decode_val_step 92 (102 :: rest) (by decide)]
    simp [read_slashed, head0]
  · rw [decode_val_step 92 (69 :: rest) (by decide)]
    simp [read_slashed, head0]
  · intro hn ht hr hf hE hd
    rw [decode_val_step 92 (b :: rest) (by decide), rs_other b rest hn ht hr hf hE hd]
    simp
  · intro h1 h2 h3
    rw [decode_val_step 92 (d1 :: d2 :: d3 :: rest) (by decide), rs_oct3 d1 d2 d3 rest h1 h2 h3]
    simp
  · intro h1 h2 h3
    rw [decode_val_step 92 (d1 :: d2 :: d3 :: rest) (by decide), rs_oct2 d1 d2 d3 rest h1 h2 h3]
    simp
  · intro h1 h2
    rw [decode_val_step 92 (d1 :: d2 :: rest) (by decide), rs_oct1 d1 d2 rest h1 h2]
    simp
  · exact (decode_val_stop 58 rest (by decide)).1

/-- C3, witness: `\101` decodes to 0x41, `\:` to the colon, `\z` to
`'z'`. -/
theorem decode_val_escape_steps_witness :
    decode_val [92, 49, 48, 49] = ([65], []) ∧
    decode_val [92, 58] = ([58], []) ∧
    decode_val [92, 122] = ([122], []) := by
  refine ⟨?_, ?_, ?_⟩
  · simpa using (decode_val_escape_steps 0 0 49 48 49 []).2.2.2.2.2.2.2.1
      (by decide) (by decide) (by decide)
  · simpa using (decode_val_escape_steps 0 58 0 0 0 []).2.2.2.2.2.2.1
      (by decide) (by decide) (by decide) (by decide) (by decide) (by decide)
  · simpa using (decode_val_escape_steps 0 122 0 0 0 []).2.2.2.2.2.2.1
      (by decide) (by decide) (by decide) (by decide) (by decide) (by decide)

/-- C4: starting in Normal mode, `transition(Graphic)` emits only
start-alt-charset; a subsequent `transition(Standout)` emits
end-alt-charset then start-standout, in that order; a subsequent
`transition(Normal)` emits only end-standout; and `transition(m)` while
the current mode is already `m` emits nothing (for every mode, in
particular for the three modes of the closed set). -/
theorem enter_mode_transitions :
    enter_mode SMNORMAL SMGRAPHIC = ⟨SMGRAPHIC, [.startAlt], false⟩ ∧
    enter_mode SMGRAPHIC SMSTANDOUT = ⟨SMSTANDOUT, [.endAlt, .startSo], false⟩ ∧
    enter_mode SMSTANDOUT SMNORMAL = ⟨SMNORMAL, [.endSo], false⟩ ∧
    ∀ m : Int, enter_mode m m = ⟨m, [], false⟩ :=
  ⟨by decide, by decide, by decide, enter_mode_self⟩

/-- C5, counterexample: the global `termmode` starts at the sentinel -1,
which is outside the closed set {Normal, Graphic, Standout}, and the
startup transition `enter_mode(SMNORMAL)` (made right after the init
string and keypad enable) therefore runs the defensive `default` branch
and emits the combined end-standout-then-end-alt-charset sequence.  So
it is not true that the current mode is always in the closed set, nor
that no transition ever emits the "end both" sequence. -/
theorem enter_mode_startup_endboth_counterexample :
    termmode_init = -1 ∧
    decide (modeOk termmode_init) = false ∧
    enter_mode termmode_init SMNORMAL = ⟨SMNORMAL, [.endSo, .endAlt], false⟩ ∧
    hasEndBoth (enter_mode termmode_init SMNORMAL).out = true := by
  decide

/-- C5, amended: before the first transition the mode is the sentinel
-1, outside the closed set, and the startup transition to Normal emits
the combined "end both" sequence exactly once; the startup transition
lands in Normal, and from then on every transition whose current and
target modes lie in the closed set keeps the mode in the closed set and
never emits the combined end-standout-plus-end-alt-charset sequence. -/
theorem enter_mode_closed_after_startup :
    (enter_mode termmode_init SMNORMAL).mode = SMNORMAL ∧
    ∀ cur tgt : Int, modeOk cur → modeOk tgt →
      modeOk (enter_mode cur tgt).mode ∧
      hasEndBoth (enter_mode cur tgt).out = false := by
  refine ⟨by decide, ?_⟩
  intro cur tgt hc ht
  rcases hc with h | h | h <;> rcases ht with h' | h' | h' <;> subst h <;> subst h' <;> decide

/-- C5, witness for the amended theorem at the Graphic-to-Standout
transition. -/
theorem enter_mode_closed_after_startup_witness :
    modeOk (enter_mode SMGRAPHIC SMSTANDOUT).mode ∧
    hasEndBoth (enter_mode SMGRAPHIC SMSTANDOUT).out = false :=
  enter_mode_closed_after_startup.2 SMGRAPHIC SMSTANDOUT (by decide) (by decide)

/-- C6: a graphics override entry whose value omits the `\M` mode marker
(here the string `"tb=x"`) is rejected by `read_graphics` with the fatal
"GRAPHICSMAP value has bad mode" error, for any current table — the code
exits instead of defaulting the mode to Normal as its own header comment
("If the \M is ommitted, it defaults to normal.") and the spec promise. -/
theorem read_graphics_missing_mode_marker_fatal (tab : List symgraph) :
    read_graphics [116, 98, 61, 120] tab = .error .badMode := rfl

/-- C7: on the domain of `char2sym` (bytes and the -1 end sentinel) the
source's classification equals the spec's precedence order — printable
byte first, then sentinel, newline, carriage return, form feed, tab,
non-ASCII, other control — and a printable byte classifies to itself. -/
theorem char2sym_precedence (c : Int) (_h : -1 ≤ c ∧ c ≤ 255) :
    char2sym c = classify_spec c ∧ (printableI c = true → char2sym c = c) := by
  constructor
  · unfold char2sym classify_spec
    unfold printableI notascii
    split_ifs <;> simp_all
  · intro hp
    simp [char2sym, hp]

/-- C7, witness at the printable byte 65 and the control byte 1. -/
theorem char2sym_precedence_witness :
    char2sym 65 = classify_spec 65 ∧ char2sym 65 = 65 ∧ char2sym 1 = classify_spec 1 :=
  ⟨(char2sym_precedence 65 (by decide)).1,
   (char2sym_precedence 65 (by decide)).2 (by decide),
   (char2sym_precedence 1 (by decide)).1⟩

/-- C8: `putsym` on a literal byte enters Normal mode and then emits
exactly that raw byte (so no mode-transition output when the mode is
already Normal); on a meta-symbol whose code is out of table range it
reports a diagnostic, emits nothing, leaves the mode unchanged and
returns; on an in-range meta-symbol it enters the entry's mode and emits
the entry's sequence. -/
theorem putsym_cases (gtab : List symgraph) (tm : Int) (s : Int) :
    (graphic s = false →
      putsym gtab tm s =
        ⟨SMNORMAL, (enter_mode tm SMNORMAL).out ++ [.raw (s % 256)], false⟩) ∧
    (graphic s = false → tm = SMNORMAL →
      putsym gtab tm s = ⟨SMNORMAL, [.raw (s % 256)], false⟩) ∧
    (graphic s = true → (NSYMC : Int) ≤ s % ((SYMBOLM : Int) + 1) →
      putsym gtab tm s = ⟨tm, [], true⟩) ∧
    (graphic s = true → s % ((SYMBOLM : Int) + 1) < (NSYMC : Int) →
      putsym gtab tm s =
        (let gp := gtab.getD (s % ((SYMBOLM : Int) + 1)).toNat ⟨SMNORMAL, []⟩
         let r := enter_mode tm gp.s_mode
         ⟨r.mode, r.out ++ [.gseq gp.s_seq], r.err⟩)) := by
  refine ⟨?_, ?_, ?_, ?_⟩
  · intro hg
    have hn := enter_mode_to_normal tm
    simp only [putsym, hg, Bool.false_eq_true, not_false_eq_true, if_true]
    exact congrArg₂ (fun m e => TRes.mk m _ e) hn.1 hn.2
  · intro hg htm
    subst htm
    simp [putsym, hg, enter_mode_self]
  · intro hg hge
    simp [putsym, hg, hge]
  · intro hg hlt
    simp only [putsym, hg, not_true_eq_false, if_false]
    rw [if_neg (by omega)]

/-- C8, witness: a literal byte in Normal mode, an out-of-range
meta-symbol, and an in-range meta-symbol, on a concrete table. -/
theorem putsym_cases_witness :
    putsym (List.replicate 11 ⟨SMGRAPHIC, [1, 2]⟩) SMNORMAL 65 =
      ⟨SMNORMAL, [.raw ((65 : Int) % 256)], false⟩ ∧
    putsym (List.replicate 11 ⟨SMGRAPHIC, [1, 2]⟩) SMNORMAL 300 = ⟨SMNORMAL, [], true⟩ ∧
    putsym (List.replicate 11 ⟨SMGRAPHIC, [1, 2]⟩) SMNORMAL 257 =
      (let gp := (List.replicate 11 (⟨SMGRAPHIC, [1, 2]⟩ : symgraph)).getD
        ((257 : Int) % ((SYMBOLM : Int) + 1)).toNat ⟨SMNORMAL, []⟩
       let r := enter_mode SMNORMAL gp.s_mode
       ⟨r.mode, r.out ++ [.gseq gp.s_seq], r.err⟩) :=
  ⟨(putsym_cases _ SMNORMAL 65).2.1 (by decide) rfl,
   (putsym_cases _ SMNORMAL 300).2.2.1 (by decide) (by decide),
   (putsym_cases _ SMNORMAL 257).2.2.2 (by decide) (by decide)⟩

/-- C10: `read_varval` returns TRUE on every input, so the fatal "value
has bad format" branches of `read_keymap` and `read_graphics` can never
be taken: no override-string value is ever rejected at startup on
value-format grounds. -/
theorem read_varval_always_true :
    (∀ l : List Nat, (read_varval l).1 = true) ∧
    (∀ f var acc, decide (read_keymapF f var acc = Except.error KErr.valBadFormat) = false) ∧
    (∀ f var tab, decide (read_graphicsF f var tab = Except.error GErr.valBadFormat) = false) :=
  ⟨read_varval_fst,
   fun f var acc => decide_eq_false (read_keymapF_ne_vbf f var acc),
   fun f var tab => decide_eq_false (read_graphicsF_ne_vbf f var tab)⟩

end Cbw
